import Mathlib

/-!
Verification of the dynamic field marshaler of terraform-provider-sonarr.

The shallow embedding covers:
* the indexer resource's field marshaler: the field loop of `writeIndexer`
  (inbound, `[]*starr.FieldOutput → Indexer`) and `readIndexerFields`
  (outbound, `Indexer → []*starr.FieldInput`) from
  `internal/provider/indexer_resource.go`, together with the five static
  partition lists `indexerBoolFields`, `indexerIntFields`,
  `indexerFloatFields`, `indexerStringFields`, `indexerIntSliceFields`;
* `SonarrProvider.Configure` from `internal/provider/provider.go`;
* `getLanguageID` and `readLanguageProfile` from
  `internal/provider/language_profile_resource.go`.

The leaf helper functions (`helpers.WriteBoolField`, `helpers.ReadIntField`,
and friends) live in the `internal/helpers` package, whose source is not part
of the source tree analysed here; they are modelled from the specification as
noted on each definition.

Wire values are JSON scalars: booleans, numbers, strings and lists.  Go's
`int64` is modelled by `Int` and `float64` by `Rat`; the marshaler performs no
arithmetic on either, it only carries values through, so the round-trip and
frame statements are unaffected by the width of the carrier.
-/

namespace SonarrProvider

/-- An untyped wire value of a dynamic field, as carried by a
`starr.FieldOutput`/`starr.FieldInput` (`Value interface{}` in Go).
`absent` models a `nil` value. -/
inductive FieldValue where
  | absent : FieldValue
  | boolV (b : Bool) : FieldValue
  | intV (i : Int) : FieldValue
  | floatV (q : Rat) : FieldValue
  | strV (s : String) : FieldValue
  | intListV (l : List Int) : FieldValue
deriving DecidableEq, Repr

/-- One `{name, value}` entry of a resource's dynamic field list. -/
structure FieldEntry where
  name : String
  value : FieldValue
deriving DecidableEq, Repr

/-! ### The indexer resource's static partitions
Verbatim from `indexer_resource.go` lines 26–32. -/

def indexerIntSliceFields : List String := ["categories", "animeCategories"]

def indexerBoolFields : List String := ["allowZeroSize", "animeStandardFormatSearch", "rankedOnly"]

def indexerIntFields : List String := ["delay", "minimumSeeders", "seasonPackSeedTime", "seedTime"]

def indexerStringFields : List String := ["additionalParameters", "apiKey", "apiPath", "baseUrl", "captchaToken", "cookie", "passkey", "username"]

def indexerFloatFields : List String := ["seedRatio"]

/-- The field-backed attributes of the `Indexer` data model
(`indexer_resource.go` lines 44–74).  Each attribute is tri-state in the
framework (`null`/`unknown` vs a known value); the marshaler distinguishes
only unset (`none`) from present (`some`), with present-empty for the
list-typed attributes being `some []`.  The common attributes (id, name,
tags, enable flags, implementation, config contract, priority, protocol,
download client id) are carried as top-level API properties, never through
the field list, so they play no part in the field marshaler. -/
structure Indexer where
  allowZeroSize : Option Bool := none
  animeStandardFormatSearch : Option Bool := none
  rankedOnly : Option Bool := none
  delay : Option Int := none
  minimumSeeders : Option Int := none
  seasonPackSeedTime : Option Int := none
  seedTime : Option Int := none
  seedRatio : Option Rat := none
  additionalParameters : Option String := none
  apiKey : Option String := none
  apiPath : Option String := none
  baseUrl : Option String := none
  captchaToken : Option String := none
  cookie : Option String := none
  passkey : Option String := none
  username : Option String := none
  categories : Option (List Int) := none
  animeCategories : Option (List Int) := none
deriving DecidableEq, Repr

/-- The freshly initialised output record of `writeIndexer` before its field
loop runs: every field-backed attribute unset. -/
def emptyIndexer : Indexer := {}

/-! ### Spec-modelled leaf helpers, inbound direction

Modelled from the spec: the `internal/helpers` write helpers coerce one
present wire value to the locally typed attribute selected by the entry's
name and set it present-with-value; a value of the wrong dynamic type is a
programming-contract violation that fails loudly (panic), modelled as `none`.
-/

/-- Modelled from the spec: `helpers.WriteStringField` — sets the string
attribute named by the entry; panics (`none`) on a non-string value. -/
def WriteStringField (f : FieldEntry) (out : Indexer) : Option Indexer :=
  match f.value with
  | .strV s =>
      if f.name = "additionalParameters" then some { out with additionalParameters := some s }
      else if f.name = "apiKey" then some { out with apiKey := some s }
      else if f.name = "apiPath" then some { out with apiPath := some s }
      else if f.name = "baseUrl" then some { out with baseUrl := some s }
      else if f.name = "captchaToken" then some { out with captchaToken := some s }
      else if f.name = "cookie" then some { out with cookie := some s }
      else if f.name = "passkey" then some { out with passkey := some s }
      else if f.name = "username" then some { out with username := some s }
      else some out
  | _ => none

/-- Modelled from the spec: `helpers.WriteBoolField` — sets the boolean
attribute named by the entry; panics (`none`) on a non-boolean value. -/
def WriteBoolField (f : FieldEntry) (out : Indexer) : Option Indexer :=
  match f.value with
  | .boolV b =>
      if f.name = "allowZeroSize" then some { out with allowZeroSize := some b }
      else if f.name = "animeStandardFormatSearch" then some { out with animeStandardFormatSearch := some b }
      else if f.name = "rankedOnly" then some { out with rankedOnly := some b }
      else some out
  | _ => none

/-- Modelled from the spec: `helpers.WriteIntField` — sets the integer
attribute named by the entry; panics (`none`) on a non-numeric value. -/
def WriteIntField (f : FieldEntry) (out : Indexer) : Option Indexer :=
  match f.value with
  | .intV i =>
      if f.name = "delay" then some { out with delay := some i }
      else if f.name = "minimumSeeders" then some { out with minimumSeeders := some i }
      else if f.name = "seasonPackSeedTime" then some { out with seasonPackSeedTime := some i }
      else if f.name = "seedTime" then some { out with seedTime := some i }
      else some out
  | _ => none

/-- Modelled from the spec: `helpers.WriteFloatField` — sets the
floating-point attribute named by the entry; panics (`none`) on a non-numeric
value. -/
def WriteFloatField (f : FieldEntry) (out : Indexer) : Option Indexer :=
  match f.value with
  | .floatV q =>
      if f.name = "seedRatio" then some { out with seedRatio := some q }
      else some out
  | _ => none

/-- Modelled from the spec: `helpers.WriteIntSliceField` — sets the
integer-list attribute named by the entry as present (an empty list is a
distinct, valid present state); panics (`none`) on a non-list value. -/
def WriteIntSliceField (f : FieldEntry) (out : Indexer) : Option Indexer :=
  match f.value with
  | .intListV l =>
      if f.name = "categories" then some { out with categories := some l }
      else if f.name = "animeCategories" then some { out with animeCategories := some l }
      else some out
  | _ => none

/-- One iteration of the field loop of `writeIndexer`
(`indexer_resource.go` lines 420–452): a `nil` value is skipped before any
partition lookup; otherwise the partitions are probed in source order
(strings, booleans, integers, floats, integer lists) and an entry found in
none of them is skipped silently. -/
def writeIndexerFieldStep (out : Indexer) (f : FieldEntry) : Option Indexer :=
  if f.value = .absent then some out
  else if f.name ∈ indexerStringFields then WriteStringField f out
  else if f.name ∈ indexerBoolFields then WriteBoolField f out
  else if f.name ∈ indexerIntFields then WriteIntField f out
  else if f.name ∈ indexerFloatFields then WriteFloatField f out
  else if f.name ∈ indexerIntSliceFields then WriteIntSliceField f out
  else some out

/-- The field loop of `writeIndexer`, folded over the response's field list
from a given accumulator record; `none` models a panic in a leaf helper. -/
def writeIndexerFieldLoop : Indexer → List FieldEntry → Option Indexer
  | out, [] => some out
  | out, f :: rest =>
      match writeIndexerFieldStep out f with
      | none => none
      | some out2 => writeIndexerFieldLoop out2 rest

/-- The inbound translation: the field loop of `writeIndexer` run on the
freshly initialised record (the spec's `writeFields`). -/
def writeIndexerFields (fields : List FieldEntry) : Option Indexer :=
  writeIndexerFieldLoop emptyIndexer fields

/-! ### Spec-modelled leaf helpers, outbound direction

Modelled from the spec: the `internal/helpers` read helpers emit a
`starr.FieldInput` for the attribute selected by name when it is present
(also when it is a present-empty list), and `nil` when it is unset, so that
an unset attribute is omitted from the output list.
-/

/-- Modelled from the spec: `helpers.ReadBoolField`. -/
def ReadBoolField (name : String) (ind : Indexer) : Option FieldEntry :=
  if name = "allowZeroSize" then ind.allowZeroSize.map (fun b => ⟨name, .boolV b⟩)
  else if name = "animeStandardFormatSearch" then ind.animeStandardFormatSearch.map (fun b => ⟨name, .boolV b⟩)
  else if name = "rankedOnly" then ind.rankedOnly.map (fun b => ⟨name, .boolV b⟩)
  else none

/-- Modelled from the spec: `helpers.ReadIntField`. -/
def ReadIntField (name : String) (ind : Indexer) : Option FieldEntry :=
  if name = "delay" then ind.delay.map (fun i => ⟨name, .intV i⟩)
  else if name = "minimumSeeders" then ind.minimumSeeders.map (fun i => ⟨name, .intV i⟩)
  else if name = "seasonPackSeedTime" then ind.seasonPackSeedTime.map (fun i => ⟨name, .intV i⟩)
  else if name = "seedTime" then ind.seedTime.map (fun i => ⟨name, .intV i⟩)
  else none

/-- Modelled from the spec: `helpers.ReadFloatField`. -/
def ReadFloatField (name : String) (ind : Indexer) : Option FieldEntry :=
  if name = "seedRatio" then ind.seedRatio.map (fun q => ⟨name, .floatV q⟩)
  else none

/-- Modelled from the spec: `helpers.ReadStringField`. -/
def ReadStringField (name : String) (ind : Indexer) : Option FieldEntry :=
  if name = "additionalParameters" then ind.additionalParameters.map (fun s => ⟨name, .strV s⟩)
  else if name = "apiKey" then ind.apiKey.map (fun s => ⟨name, .strV s⟩)
  else if name = "apiPath" then ind.apiPath.map (fun s => ⟨name, .strV s⟩)
  else if name = "baseUrl" then ind.baseUrl.map (fun s => ⟨name, .strV s⟩)
  else if name = "captchaToken" then ind.captchaToken.map (fun s => ⟨name, .strV s⟩)
  else if name = "cookie" then ind.cookie.map (fun s => ⟨name, .strV s⟩)
  else if name = "passkey" then ind.passkey.map (fun s => ⟨name, .strV s⟩)
  else if name = "username" then ind.username.map (fun s => ⟨name, .strV s⟩)
  else none

/-- Modelled from the spec: `helpers.ReadIntSliceField`. -/
def ReadIntSliceField (name : String) (ind : Indexer) : Option FieldEntry :=
  if name = "categories" then ind.categories.map (fun l => ⟨name, .intListV l⟩)
  else if name = "animeCategories" then ind.animeCategories.map (fun l => ⟨name, .intListV l⟩)
  else none

/-- The outbound translation `readIndexerFields`
(`indexer_resource.go` lines 478–512): one pass per partition, in source
order (booleans, integers, floats, strings, integer lists), appending the
emitted entry for each declared name whose attribute is present. -/
def readIndexerFields (ind : Indexer) : List FieldEntry :=
  indexerBoolFields.filterMap (fun b => ReadBoolField b ind) ++
  indexerIntFields.filterMap (fun i => ReadIntField i ind) ++
  indexerFloatFields.filterMap (fun f => ReadFloatField f ind) ++
  indexerStringFields.filterMap (fun s => ReadStringField s ind) ++
  indexerIntSliceFields.filterMap (fun s => ReadIntSliceField s ind)

/-- All declared field names of the indexer resource, in the emission order
of `readIndexerFields`. -/
def allIndexerFieldNames : List String :=
  indexerBoolFields ++ indexerIntFields ++ indexerFloatFields ++
  indexerStringFields ++ indexerIntSliceFields

/-- Present/absent view of an optional attribute as a wire value. -/
def optValue {α : Type} (f : α → FieldValue) : Option α → FieldValue
  | none => .absent
  | some a => f a

@[simp]
lemma optValue_none {α : Type} (f : α → FieldValue) : optValue f none = .absent := rfl

@[simp]
lemma optValue_some {α : Type} (f : α → FieldValue) (a : α) : optValue f (some a) = f a := rfl

/-- Spec-side view of an `Indexer` record: the attribute selected by a
declared field name, as a wire value; `absent` for an unset attribute and
for every undeclared name. -/
def getField (ind : Indexer) : String → FieldValue
  | "allowZeroSize" => optValue .boolV ind.allowZeroSize
  | "animeStandardFormatSearch" => optValue .boolV ind.animeStandardFormatSearch
  | "rankedOnly" => optValue .boolV ind.rankedOnly
  | "delay" => optValue .intV ind.delay
  | "minimumSeeders" => optValue .intV ind.minimumSeeders
  | "seasonPackSeedTime" => optValue .intV ind.seasonPackSeedTime
  | "seedTime" => optValue .intV ind.seedTime
  | "seedRatio" => optValue .floatV ind.seedRatio
  | "additionalParameters" => optValue .strV ind.additionalParameters
  | "apiKey" => optValue .strV ind.apiKey
  | "apiPath" => optValue .strV ind.apiPath
  | "baseUrl" => optValue .strV ind.baseUrl
  | "captchaToken" => optValue .strV ind.captchaToken
  | "cookie" => optValue .strV ind.cookie
  | "passkey" => optValue .strV ind.passkey
  | "username" => optValue .strV ind.username
  | "categories" => optValue .intListV ind.categories
  | "animeCategories" => optValue .intListV ind.animeCategories
  | _ => .absent

example (acc : Indexer) (s : String) :
    writeIndexerFieldStep acc ⟨"apiKey", .strV s⟩ = some { acc with apiKey := some s } := by
  simp [writeIndexerFieldStep, WriteStringField, indexerStringFields]

example (acc : Indexer) (s : String) :
    getField { acc with apiKey := some s } "apiKey" = .strV s := by
  simp [getField]

example (acc : Indexer) (s : String) (n : String) (h : n ≠ "apiKey") :
    getField { acc with apiKey := some s } n = getField acc n := by
  unfold getField
  split <;> first | rfl | exact absurd rfl h

example : writeIndexerFields [⟨"delay", .intV 5⟩] = some { emptyIndexer with delay := some 5 } := by decide

example : readIndexerFields { emptyIndexer with delay := some 5, categories := some [] } =
    [⟨"delay", .intV 5⟩, ⟨"categories", .intListV []⟩] := by decide

/-- An entry is well typed when its name lies in one of the indexer's
declared partitions and its value is a present value of that partition's
declared type. -/
def wellTyped (f : FieldEntry) : Prop :=
  (f.name ∈ indexerBoolFields ∧ ∃ b, f.value = .boolV b) ∨
  (f.name ∈ indexerIntFields ∧ ∃ i, f.value = .intV i) ∨
  (f.name ∈ indexerFloatFields ∧ ∃ q, f.value = .floatV q) ∨
  (f.name ∈ indexerStringFields ∧ ∃ s, f.value = .strV s) ∨
  (f.name ∈ indexerIntSliceFields ∧ ∃ l, f.value = .intListV l)

/-- An entry is type consistent when its value is either absent or of the
declared type of every partition containing its name. -/
def typeConsistent (f : FieldEntry) : Prop :=
  f.value = .absent ∨
  ((f.name ∈ indexerBoolFields → ∃ b, f.value = .boolV b) ∧
   (f.name ∈ indexerIntFields → ∃ i, f.value = .intV i) ∧
   (f.name ∈ indexerFloatFields → ∃ q, f.value = .floatV q) ∧
   (f.name ∈ indexerStringFields → ∃ s, f.value = .strV s) ∧
   (f.name ∈ indexerIntSliceFields → ∃ l, f.value = .intListV l))

lemma getField_empty (n : String) : getField emptyIndexer n = .absent := by
  unfold getField
  split <;> rfl

lemma getField_ne_absent_mem (T : Indexer) (n : String) (h : getField T n ≠ .absent) :
    n ∈ allIndexerFieldNames := by
  unfold getField at h
  split at h <;> first | decide | exact absurd rfl h

lemma WriteStringField_frame (f : FieldEntry) (acc acc' : Indexer)
    (h : WriteStringField f acc = some acc') (n : String) (hn : n ≠ f.name) :
    getField acc' n = getField acc n := by
  rcases f with ⟨fn, fv⟩
  simp only at hn
  cases fv <;> simp only [WriteStringField] at h <;>
    first
      | exact Option.noConfusion h
      | (split_ifs at h <;> injection h with h9 <;> subst h9 <;> subst_vars <;>
          first
            | rfl
            | (unfold getField; split <;> first | rfl | exact absurd rfl hn))

lemma WriteBoolField_frame (f : FieldEntry) (acc acc' : Indexer)
    (h : WriteBoolField f acc = some acc') (n : String) (hn : n ≠ f.name) :
    getField acc' n = getField acc n := by
  rcases f with ⟨fn, fv⟩
  simp only at hn
  cases fv <;> simp only [WriteBoolField] at h <;>
    first
      | exact Option.noConfusion h
      | (split_ifs at h <;> injection h with h9 <;> subst h9 <;> subst_vars <;>
          first
            | rfl
            | (unfold getField; split <;> first | rfl | exact absurd rfl hn))

lemma WriteIntField_frame (f : FieldEntry) (acc acc' : Indexer)
    (h : WriteIntField f acc = some acc') (n : String) (hn : n ≠ f.name) :
    getField acc' n = getField acc n := by
  rcases f with ⟨fn, fv⟩
  simp only at hn
  cases fv <;> simp only [WriteIntField] at h <;>
    first
      | exact Option.noConfusion h
      | (split_ifs at h <;> injection h with h9 <;> subst h9 <;> subst_vars <;>
          first
            | rfl
            | (unfold getField; split <;> first | rfl | exact absurd rfl hn))

lemma WriteFloatField_frame (f : FieldEntry) (acc acc' : Indexer)
    (h : WriteFloatField f acc = some acc') (n : String) (hn : n ≠ f.name) :
    getField acc' n = getField acc n := by
  rcases f with ⟨fn, fv⟩
  simp only at hn
  cases fv <;> simp only [WriteFloatField] at h <;>
    first
      | exact Option.noConfusion h
      | (split_ifs at h <;> injection h with h9 <;> subst h9 <;> subst_vars <;>
          first
            | rfl
            | (unfold getField; split <;> first | rfl | exact absurd rfl hn))

lemma WriteIntSliceField_frame (f : FieldEntry) (acc acc' : Indexer)
    (h : WriteIntSliceField f acc = some acc') (n : String) (hn : n ≠ f.name) :
    getField acc' n = getField acc n := by
  rcases f with ⟨fn, fv⟩
  simp only at hn
  cases fv <;> simp only [WriteIntSliceField] at h <;>
    first
      | exact Option.noConfusion h
      | (split_ifs at h <;> injection h with h9 <;> subst h9 <;> subst_vars <;>
          first
            | rfl
            | (unfold getField; split <;> first | rfl | exact absurd rfl hn))

/-- One loop iteration only ever changes the attribute named by the entry it
processes. -/
lemma step_frame (acc acc' : Indexer) (f : FieldEntry)
    (h : writeIndexerFieldStep acc f = some acc') (n : String) (hn : n ≠ f.name) :
    getField acc' n = getField acc n := by
  unfold writeIndexerFieldStep at h
  split_ifs at h
  · exact (Option.some_injective _ h) ▸ rfl
  · exact WriteStringField_frame f acc acc' h n hn
  · exact WriteBoolField_frame f acc acc' h n hn
  · exact WriteIntField_frame f acc acc' h n hn
  · exact WriteFloatField_frame f acc acc' h n hn
  · exact WriteIntSliceField_frame f acc acc' h n hn
  · exact (Option.some_injective _ h) ▸ rfl

/-- An entry whose name is declared in no partition is skipped silently. -/
lemma step_unknown (acc : Indexer) (f : FieldEntry) (h : f.name ∉ allIndexerFieldNames) :
    writeIndexerFieldStep acc f = some acc := by
  simp only [allIndexerFieldNames, List.mem_append, not_or] at h
  obtain ⟨⟨⟨⟨h1, h2⟩, h3⟩, h4⟩, h5⟩ := h
  unfold writeIndexerFieldStep
  split_ifs <;> rfl

lemma WriteStringField_isSome (f : FieldEntry) (out : Indexer) (s : String)
    (hv : f.value = .strV s) : ∃ out2, WriteStringField f out = some out2 := by
  simp only [WriteStringField, hv]
  split_ifs <;> exact ⟨_, rfl⟩

lemma WriteBoolField_isSome (f : FieldEntry) (out : Indexer) (b : Bool)
    (hv : f.value = .boolV b) : ∃ out2, WriteBoolField f out = some out2 := by
  simp only [WriteBoolField, hv]
  split_ifs <;> exact ⟨_, rfl⟩

lemma WriteIntField_isSome (f : FieldEntry) (out : Indexer) (i : Int)
    (hv : f.value = .intV i) : ∃ out2, WriteIntField f out = some out2 := by
  simp only [WriteIntField, hv]
  split_ifs <;> exact ⟨_, rfl⟩

lemma WriteFloatField_isSome (f : FieldEntry) (out : Indexer) (q : Rat)
    (hv : f.value = .floatV q) : ∃ out2, WriteFloatField f out = some out2 := by
  simp only [WriteFloatField, hv]
  split_ifs <;> exact ⟨_, rfl⟩

lemma WriteIntSliceField_isSome (f : FieldEntry) (out : Indexer) (l : List Int)
    (hv : f.value = .intListV l) : ∃ out2, WriteIntSliceField f out = some out2 := by
  simp only [WriteIntSliceField, hv]
  split_ifs <;> exact ⟨_, rfl⟩

/-- On a type-consistent entry the loop iteration never panics. -/
lemma step_typeConsistent (acc : Indexer) (f : FieldEntry) (h : typeConsistent f) :
    ∃ acc', writeIndexerFieldStep acc f = some acc' := by
  rcases h with hv | ⟨hb, hi, hq, hs, hl⟩
  · exact ⟨acc, by simp [writeIndexerFieldStep, hv]⟩
  · unfold writeIndexerFieldStep
    split_ifs with v1 m1 m2 m3 m4 m5
    · exact ⟨acc, rfl⟩
    · obtain ⟨s, hv⟩ := hs m1
      exact WriteStringField_isSome f acc s hv
    · obtain ⟨b, hv⟩ := hb m2
      exact WriteBoolField_isSome f acc b hv
    · obtain ⟨i, hv⟩ := hi m3
      exact WriteIntField_isSome f acc i hv
    · obtain ⟨q, hv⟩ := hq m4
      exact WriteFloatField_isSome f acc q hv
    · obtain ⟨l, hv⟩ := hl m5
      exact WriteIntSliceField_isSome f acc l hv
    · exact ⟨acc, rfl⟩

/-- On a well-typed entry the loop iteration succeeds and sets exactly the
attribute named by the entry to the entry's value. -/
lemma step_wellTyped (acc : Indexer) (f : FieldEntry) (hf : wellTyped f) :
    ∃ acc', writeIndexerFieldStep acc f = some acc' ∧ getField acc' f.name = f.value := by
  rcases f with ⟨fn, fv⟩
  rcases hf with ⟨hm, b, hv⟩ | ⟨hm, i, hv⟩ | ⟨hm, q, hv⟩ | ⟨hm, s, hv⟩ | ⟨hm, l, hv⟩ <;>
    simp only at hm hv <;> subst hv
  · fin_cases hm
    · exact ⟨{ acc with allowZeroSize := some b },
        by simp [writeIndexerFieldStep, WriteBoolField, indexerStringFields, indexerBoolFields],
        by simp [getField]⟩
    · exact ⟨{ acc with animeStandardFormatSearch := some b },
        by simp [writeIndexerFieldStep, WriteBoolField, indexerStringFields, indexerBoolFields],
        by simp [getField]⟩
    · exact ⟨{ acc with rankedOnly := some b },
        by simp [writeIndexerFieldStep, WriteBoolField, indexerStringFields, indexerBoolFields],
        by simp [getField]⟩
  · fin_cases hm
    · exact ⟨{ acc with delay := some i },
        by simp [writeIndexerFieldStep, WriteIntField, indexerStringFields, indexerBoolFields,
          indexerIntFields],
        by simp [getField]⟩
    · exact ⟨{ acc with minimumSeeders := some i },
        by simp [writeIndexerFieldStep, WriteIntField, indexerStringFields, indexerBoolFields,
          indexerIntFields],
        by simp [getField]⟩
    · exact ⟨{ acc with seasonPackSeedTime := some i },
        by simp [writeIndexerFieldStep, WriteIntField, indexerStringFields, indexerBoolFields,
          indexerIntFields],
        by simp [getField]⟩
    · exact ⟨{ acc with seedTime := some i },
        by simp [writeIndexerFieldStep, WriteIntField, indexerStringFields, indexerBoolFields,
          indexerIntFields],
        by simp [getField]⟩
  · fin_cases hm
    · exact ⟨{ acc with seedRatio := some q },
        by simp [writeIndexerFieldStep, WriteFloatField, indexerStringFields, indexerBoolFields,
          indexerIntFields, indexerFloatFields],
        by simp [getField]⟩
  · fin_cases hm
    · exact ⟨{ acc with additionalParameters := some s },
        by simp [writeIndexerFieldStep, WriteStringField, indexerStringFields],
        by simp [getField]⟩
    · exact ⟨{ acc with apiKey := some s },
        by simp [writeIndexerFieldStep, WriteStringField, indexerStringFields],
        by simp [getField]⟩
    · exact ⟨{ acc with apiPath := some s },
        by simp [writeIndexerFieldStep, WriteStringField, indexerStringFields],
        by simp [getField]⟩
    · exact ⟨{ acc with baseUrl := some s },
        by simp [writeIndexerFieldStep, WriteStringField, indexerStringFields],
        by simp [getField]⟩
    · exact ⟨{ acc with captchaToken := some s },
        by simp [writeIndexerFieldStep, WriteStringField, indexerStringFields],
        by simp [getField]⟩
    · exact ⟨{ acc with cookie := some s },
        by simp [writeIndexerFieldStep, WriteStringField, indexerStringFields],
        by simp [getField]⟩
    · exact ⟨{ acc with passkey := some s },
        by simp [writeIndexerFieldStep, WriteStringField, indexerStringFields],
        by simp [getField]⟩
    · exact ⟨{ acc with username := some s },
        by simp [writeIndexerFieldStep, WriteStringField, indexerStringFields],
        by simp [getField]⟩
  · fin_cases hm
    · exact ⟨{ acc with categories := some l },
        by simp [writeIndexerFieldStep, WriteIntSliceField, indexerStringFields,
          indexerBoolFields, indexerIntFields, indexerFloatFields, indexerIntSliceFields],
        by simp [getField]⟩
    · exact ⟨{ acc with animeCategories := some l },
        by simp [writeIndexerFieldStep, WriteIntSliceField, indexerStringFields,
          indexerBoolFields, indexerIntFields, indexerFloatFields, indexerIntSliceFields],
        by simp [getField]⟩

/-- Running the field loop on a well-typed, duplicate-free field list
succeeds and leaves each declared attribute equal to the value of the list's
entry of that name, the accumulator's value when the list has none. -/
lemma writeLoop_getField (L : List FieldEntry) (hT : ∀ f ∈ L, wellTyped f)
    (hD : (L.map FieldEntry.name).Nodup) :
    ∀ acc, ∃ T, writeIndexerFieldLoop acc L = some T ∧
      ∀ n, getField T n =
        ((L.find? (fun g => g.name == n)).map FieldEntry.value).getD (getField acc n) := by
  induction L with
  | nil => exact fun acc => ⟨acc, rfl, fun n => rfl⟩
  | cons f rest ih =>
    intro acc
    obtain ⟨acc', hstep, hhit⟩ := step_wellTyped acc f (hT f (List.mem_cons_self f rest))
    have hD' : (rest.map FieldEntry.name).Nodup := by
      simpa using (List.nodup_cons.mp (by simpa using hD)).2
    obtain ⟨T, hloop, hchar⟩ :=
      ih (fun g hg => hT g (List.mem_cons_of_mem f hg)) hD' acc'
    refine ⟨T, ?_, ?_⟩
    · simpa [writeIndexerFieldLoop, hstep] using hloop
    · intro n
      rw [hchar n]
      by_cases hn : f.name = n
      · subst hn
        have hnone : rest.find? (fun g => g.name == f.name) = none := by
          rw [List.find?_eq_none]
          intro g hg
          simp only [beq_iff_eq]
          intro hEq
          have hmem : f.name ∈ rest.map FieldEntry.name := by
            rw [← hEq]
            exact List.mem_map_of_mem _ hg
          exact (List.nodup_cons.mp (by simpa using hD)).1 hmem
        rw [hnone, List.find?_cons_of_pos _ (by simp)]
        simpa using hhit
      · rw [List.find?_cons_of_neg _ (by simpa using hn)]
        cases hfind : rest.find? (fun g => g.name == n) with
        | some g => simp [hfind]
        | none =>
            simp only [hfind, Option.map_none', Option.getD_none]
            exact step_frame acc acc' f hstep n (Ne.symm hn)

/-- The entry `readIndexerFields` emits for one declared name: omitted when
the attribute is unset, the name paired with the attribute's wire value
otherwise. -/
def emitField (T : Indexer) (n : String) : Option FieldEntry :=
  match getField T n with
  | .absent => none
  | v => some ⟨n, v⟩

lemma emitField_eq_some (T : Indexer) (n : String) (e : FieldEntry) :
    emitField T n = some e ↔ getField T n ≠ .absent ∧ e = ⟨n, getField T n⟩ := by
  unfold emitField
  cases h : getField T n <;> simp [eq_comm]

lemma ReadBoolField_eq (T : Indexer) (n : String) (hn : n ∈ indexerBoolFields) :
    ReadBoolField n T = emitField T n := by
  fin_cases hn
  · simp only [ReadBoolField, emitField, getField]
    cases T.allowZeroSize <;> simp
  · simp only [ReadBoolField, emitField, getField]
    cases T.animeStandardFormatSearch <;> simp
  · simp only [ReadBoolField, emitField, getField]
    cases T.rankedOnly <;> simp

lemma ReadIntField_eq (T : Indexer) (n : String) (hn : n ∈ indexerIntFields) :
    ReadIntField n T = emitField T n := by
  fin_cases hn
  · simp only [ReadIntField, emitField, getField]
    cases T.delay <;> simp
  · simp only [ReadIntField, emitField, getField]
    cases T.minimumSeeders <;> simp
  · simp only [ReadIntField, emitField, getField]
    cases T.seasonPackSeedTime <;> simp
  · simp only [ReadIntField, emitField, getField]
    cases T.seedTime <;> simp

lemma ReadFloatField_eq (T : Indexer) (n : String) (hn : n ∈ indexerFloatFields) :
    ReadFloatField n T = emitField T n := by
  fin_cases hn
  · simp only [ReadFloatField, emitField, getField]
    cases T.seedRatio <;> simp

lemma ReadStringField_eq (T : Indexer) (n : String) (hn : n ∈ indexerStringFields) :
    ReadStringField n T = emitField T n := by
  fin_cases hn
  · simp only [ReadStringField, emitField, getField]
    cases T.additionalParameters <;> simp
  · simp only [ReadStringField, emitField, getField]
    cases T.apiKey <;> simp
  · simp only [ReadStringField, emitField, getField]
    cases T.apiPath <;> simp
  · simp only [ReadStringField, emitField, getField]
    cases T.baseUrl <;> simp
  · simp only [ReadStringField, emitField, getField]
    cases T.captchaToken <;> simp
  · simp only [ReadStringField, emitField, getField]
    cases T.cookie <;> simp
  · simp only [ReadStringField, emitField, getField]
    cases T.passkey <;> simp
  · simp only [ReadStringField, emitField, getField]
    cases T.username <;> simp

lemma ReadIntSliceField_eq (T : Indexer) (n : String) (hn : n ∈ indexerIntSliceFields) :
    ReadIntSliceField n T = emitField T n := by
  fin_cases hn
  · simp only [ReadIntSliceField, emitField, getField]
    cases T.categories <;> simp
  · simp only [ReadIntSliceField, emitField, getField]
    cases T.animeCategories <;> simp

/-- Normal form of the outbound direction: one emission attempt per declared
name, in the fixed partition order. -/
lemma readIndexerFields_eq (T : Indexer) :
    readIndexerFields T = allIndexerFieldNames.filterMap (emitField T) := by
  unfold readIndexerFields allIndexerFieldNames
  rw [List.filterMap_append, List.filterMap_append, List.filterMap_append,
    List.filterMap_append]
  rw [List.filterMap_congr (fun n hn => ReadBoolField_eq T n hn),
    List.filterMap_congr (fun n hn => ReadIntField_eq T n hn),
    List.filterMap_congr (fun n hn => ReadFloatField_eq T n hn),
    List.filterMap_congr (fun n hn => ReadStringField_eq T n hn),
    List.filterMap_congr (fun n hn => ReadIntSliceField_eq T n hn)]

/-- Membership characterization of the outbound direction. -/
lemma mem_readIndexerFields (T : Indexer) (e : FieldEntry) :
    e ∈ readIndexerFields T ↔ getField T e.name = e.value ∧ e.value ≠ .absent := by
  rw [readIndexerFields_eq, List.mem_filterMap]
  constructor
  · rintro ⟨n, _, hemit⟩
    obtain ⟨hne, rfl⟩ := (emitField_eq_some T n e).mp hemit
    exact ⟨rfl, hne⟩
  · rintro ⟨hval, hne⟩
    refine ⟨e.name, ?_, ?_⟩
    · exact getField_ne_absent_mem T e.name (hval ▸ hne)
    · exact (emitField_eq_some T e.name e).mpr ⟨hval ▸ hne, by rw [hval]⟩

/-- The names of the emitted entries form a sublist of the processed name
list: order is preserved and no name appears twice. -/
lemma emit_names_sublist (T : Indexer) :
    ∀ l : List String, ((l.filterMap (emitField T)).map FieldEntry.name).Sublist l := by
  intro l
  induction l with
  | nil => simp
  | cons n rest ih =>
    rw [List.filterMap_cons]
    cases h : emitField T n with
    | none => exact ih.cons n
    | some e =>
        obtain ⟨_, rfl⟩ := (emitField_eq_some T n e).mp h
        simpa using ih.cons₂ n

lemma nodup_find?_mem (L : List FieldEntry) (e : FieldEntry)
    (hD : (L.map FieldEntry.name).Nodup) (he : e ∈ L) :
    L.find? (fun g => g.name == e.name) = some e := by
  induction L with
  | nil => cases he
  | cons f rest ih =>
    rcases List.mem_cons.mp he with rfl | hin
    · exact List.find?_cons_of_pos _ (by simp)
    · have hD' : (∀ x ∈ rest, ¬ x.name = f.name) ∧ (rest.map FieldEntry.name).Nodup := by
        simpa using hD
      have hne : (f.name == e.name) = false := by
        simp only [beq_eq_false_iff_ne, ne_eq]
        intro hEq
        exact hD'.1 e hin hEq.symm
      rw [List.find?_cons, hne]
      exact ih hD'.2 hin

lemma writeLoop_skip_unknown (L₁ L₂ : List FieldEntry) (f : FieldEntry)
    (h : f.name ∉ allIndexerFieldNames) :
    ∀ acc, writeIndexerFieldLoop acc (L₁ ++ f :: L₂) = writeIndexerFieldLoop acc (L₁ ++ L₂) := by
  induction L₁ with
  | nil =>
    intro acc
    simp [writeIndexerFieldLoop, step_unknown acc f h]
  | cons g rest ih =>
    intro acc
    simp only [List.cons_append, writeIndexerFieldLoop]
    cases hstep : writeIndexerFieldStep acc g with
    | none => rfl
    | some acc' => exact ih acc'

lemma writeLoop_typeConsistent (L : List FieldEntry) (h : ∀ f ∈ L, typeConsistent f) :
    ∀ acc, ∃ T, writeIndexerFieldLoop acc L = some T := by
  induction L with
  | nil => exact fun acc => ⟨acc, rfl⟩
  | cons f rest ih =>
    intro acc
    obtain ⟨acc', hstep⟩ := step_typeConsistent acc f (h f (List.mem_cons_self f rest))
    obtain ⟨T, hloop⟩ := ih (fun g hg => h g (List.mem_cons_of_mem f hg)) acc'
    exact ⟨T, by simp [writeIndexerFieldLoop, hstep, hloop]⟩

lemma writeLoop_frame (L : List FieldEntry) (a : String)
    (h : ∀ f ∈ L, f.name = a → f.value = .absent) :
    ∀ acc T, writeIndexerFieldLoop acc L = some T → getField T a = getField acc a := by
  induction L with
  | nil =>
    intro acc T hT
    simp only [writeIndexerFieldLoop] at hT
    injection hT with h
    rw [← h]
  | cons f rest ih =>
    intro acc T hT
    unfold writeIndexerFieldLoop at hT
    cases hstep : writeIndexerFieldStep acc f with
    | none => rw [hstep] at hT; cases hT
    | some acc' =>
        rw [hstep] at hT
        rw [ih (fun g hg => h g (List.mem_cons_of_mem f hg)) acc' T hT]
        by_cases hfa : f.name = a
        · have hv := h f (List.mem_cons_self f rest) hfa
          have hacc : acc = acc' := by
            simpa [writeIndexerFieldStep, hv] using hstep
          rw [hacc]
        · exact step_frame acc acc' f hstep a (Ne.symm hfa)

/-! ### The claims about the indexer field marshaler -/

/-- C1: round-trip law — translating a duplicate-free, well-typed field list
inbound through the field loop of `writeIndexer` and back outbound through
`readIndexerFields` reproduces a field list with exactly the same set of
name/value entries, compared as a set (equality up to order). -/
theorem indexer_field_roundtrip (L : List FieldEntry)
    (hT : ∀ f ∈ L, wellTyped f) (hD : (L.map FieldEntry.name).Nodup) :
    ∃ T, writeIndexerFields L = some T ∧
      ∀ e, e ∈ readIndexerFields T ↔ e ∈ L := by
  obtain ⟨T, hloop, hchar⟩ := writeLoop_getField L hT hD emptyIndexer
  refine ⟨T, hloop, fun e => ?_⟩
  rw [mem_readIndexerFields]
  constructor
  · rintro ⟨hval, hne⟩
    have hc := hchar e.name
    rw [hval, getField_empty] at hc
    cases hfind : L.find? (fun g => g.name == e.name) with
    | none =>
        rw [hfind] at hc
        simp only [Option.map_none', Option.getD_none] at hc
        exact absurd hc hne
    | some g =>
        rw [hfind] at hc
        simp only [Option.map_some', Option.getD_some] at hc
        have hg := List.mem_of_find?_eq_some hfind
        have hgname : g.name = e.name := by simpa using List.find?_some hfind
        have heg : e = g := by
          rcases e with ⟨en, ev⟩
          rcases g with ⟨gn, gv⟩
          simp only at hgname hc
          rw [hgname, hc]
        rw [heg]
        exact hg
  · intro he
    have hne : e.value ≠ .absent := by
      rcases hT e he with ⟨_, _, hv⟩ | ⟨_, _, hv⟩ | ⟨_, _, hv⟩ | ⟨_, _, hv⟩ | ⟨_, _, hv⟩ <;>
        rw [hv] <;> simp
    refine ⟨?_, hne⟩
    rw [hchar e.name, nodup_find?_mem L e hD he]
    simp

/-- Witness for C1 at a concrete two-entry field list. -/
theorem indexer_field_roundtrip_witness :
    ∃ T, writeIndexerFields [⟨"delay", .intV 8096⟩, ⟨"apiKey", .strV "k"⟩] = some T ∧
      ∀ e, e ∈ readIndexerFields T ↔
        e ∈ [(⟨"delay", .intV 8096⟩ : FieldEntry), ⟨"apiKey", .strV "k"⟩] :=
  indexer_field_roundtrip _
    (by
      intro f hf
      fin_cases hf
      · exact Or.inr (Or.inl ⟨by decide, 8096, rfl⟩)
      · exact Or.inr (Or.inr (Or.inr (Or.inl ⟨by decide, "k", rfl⟩))))
    (by decide)

/-- C2: omission law — an unset field-backed attribute contributes no entry
to the outbound field list: only present attributes are emitted. -/
theorem indexer_read_omits_unset (T : Indexer) (a : String)
    (h : getField T a = .absent) :
    ∀ e ∈ readIndexerFields T, e.name ≠ a := by
  intro e he heq
  obtain ⟨hval, hne⟩ := (mem_readIndexerFields T e).mp he
  rw [heq, h] at hval
  exact hne hval.symm

/-- Witness for C2: a record with only `apiKey` set emits nothing named
`delay`. -/
theorem indexer_read_omits_unset_witness :
    getField { emptyIndexer with apiKey := some "k" } "delay" = .absent ∧
    ∀ e ∈ readIndexerFields { emptyIndexer with apiKey := some "k" }, e.name ≠ "delay" :=
  ⟨by decide, indexer_read_omits_unset _ _ (by decide)⟩

/-- C3: forward-compatibility law — an entry whose name no partition declares
is skipped without error and has no effect: the translation equals that of
the list without the entry, and one loop iteration on it is the identity. -/
theorem indexer_unknown_field_ignored (L₁ L₂ : List FieldEntry) (f : FieldEntry)
    (h : f.name ∉ allIndexerFieldNames) :
    writeIndexerFields (L₁ ++ f :: L₂) = writeIndexerFields (L₁ ++ L₂) ∧
    ∀ acc, writeIndexerFieldStep acc f = some acc :=
  ⟨writeLoop_skip_unknown L₁ L₂ f h emptyIndexer, fun acc => step_unknown acc f h⟩

/-- Witness for C3: a field named `somethingNew` is ignored. -/
theorem indexer_unknown_field_ignored_witness :
    (⟨"somethingNew", .strV "x"⟩ : FieldEntry).name ∉ allIndexerFieldNames ∧
    writeIndexerFields [⟨"delay", .intV 1⟩, ⟨"somethingNew", .strV "x"⟩] =
      writeIndexerFields [⟨"delay", .intV 1⟩] := by
  refine ⟨by decide, ?_⟩
  have h := (indexer_unknown_field_ignored [⟨"delay", .intV 1⟩] []
    ⟨"somethingNew", .strV "x"⟩ (by decide)).1
  simpa using h

/-- C4: empty-list distinctness — writing the single entry `{categories, []}`
yields a present-empty categories attribute, distinct from unset, and a
present-empty categories attribute is emitted as `{categories, []}` rather
than omitted. -/
theorem indexer_empty_list_distinct :
    writeIndexerFields [⟨"categories", .intListV []⟩] =
      some { emptyIndexer with categories := some [] } ∧
    ({ emptyIndexer with categories := some [] } : Indexer).categories ≠
      emptyIndexer.categories ∧
    ∀ T : Indexer, T.categories = some [] →
      (⟨"categories", .intListV []⟩ : FieldEntry) ∈ readIndexerFields T := by
  refine ⟨by decide, by decide, fun T h => ?_⟩
  exact (mem_readIndexerFields T ⟨"categories", .intListV []⟩).mpr
    ⟨by simp [getField, h], by simp⟩

/-- Witness for C4 on a concrete present-empty record. -/
theorem indexer_empty_list_distinct_witness :
    (⟨"categories", .intListV []⟩ : FieldEntry) ∈
      readIndexerFields { emptyIndexer with categories := some [] } :=
  indexer_empty_list_distinct.2.2 _ rfl

/-- C5: output uniqueness and closure — the outbound list never contains two
entries with the same name, never an entry whose name is outside the declared
partitions, and those partitions are pairwise disjoint and duplicate free. -/
theorem indexer_read_output_invariant (T : Indexer) :
    ((readIndexerFields T).map FieldEntry.name).Nodup ∧
    (∀ e ∈ readIndexerFields T, e.name ∈ allIndexerFieldNames) ∧
    allIndexerFieldNames.Nodup := by
  have hsub : ((readIndexerFields T).map FieldEntry.name).Sublist allIndexerFieldNames := by
    rw [readIndexerFields_eq]
    exact emit_names_sublist T allIndexerFieldNames
  refine ⟨List.Nodup.sublist hsub (by decide), fun e he => ?_, by decide⟩
  obtain ⟨hval, hne⟩ := (mem_readIndexerFields T e).mp he
  refine getField_ne_absent_mem T e.name ?_
  rw [hval]
  exact hne

/-- Witness for C5 on a concrete record. -/
theorem indexer_read_output_invariant_witness :
    ((readIndexerFields { emptyIndexer with delay := some 5 }).map FieldEntry.name).Nodup ∧
    "delay" ∈ allIndexerFieldNames :=
  ⟨(indexer_read_output_invariant { emptyIndexer with delay := some 5 }).1,
   (indexer_read_output_invariant { emptyIndexer with delay := some 5 }).2.1
     ⟨"delay", .intV 5⟩ (by decide)⟩

/-- C6: fail-fast on type mismatch — a declared name carrying a value of the
wrong dynamic type makes the inbound translation fail loudly (the modelled
panic, `none`) instead of defaulting or erroring recoverably, and under
type-consistent values that failure branch is unreachable. -/
theorem indexer_type_mismatch_failfast :
    writeIndexerFields [⟨"delay", .strV "not-a-number"⟩] = none ∧
    ∀ L, (∀ f ∈ L, typeConsistent f) → (writeIndexerFields L).isSome := by
  refine ⟨by decide, fun L h => ?_⟩
  obtain ⟨T, hT⟩ := writeLoop_typeConsistent L h emptyIndexer
  simp [writeIndexerFields, hT]

/-- Witness for C6 on a type-consistent singleton list. -/
theorem indexer_type_mismatch_failfast_witness :
    (writeIndexerFields [⟨"delay", .intV 3⟩]).isSome :=
  indexer_type_mismatch_failfast.2 _
    (by
      intro f hf
      fin_cases hf
      exact Or.inr ⟨fun hm => absurd hm (by decide), fun _ => ⟨3, rfl⟩,
        fun hm => absurd hm (by decide), fun hm => absurd hm (by decide),
        fun hm => absurd hm (by decide)⟩)

/-- C7: frame on inbound translation — an attribute named by no
present-valued entry of the field list stays unset after the loop; entries
with an absent value are skipped before any partition lookup. -/
theorem indexer_write_frame (L : List FieldEntry) (a : String)
    (h : ∀ f ∈ L, f.name = a → f.value = .absent) (T : Indexer)
    (hw : writeIndexerFields L = some T) :
    getField T a = .absent := by
  rw [writeLoop_frame L a h emptyIndexer T hw, getField_empty]

/-- Witness for C7: a list with an absent-valued `delay` entry leaves
`delay` unset. -/
theorem indexer_write_frame_witness :
    writeIndexerFields [⟨"apiKey", .strV "k"⟩, ⟨"delay", .absent⟩] =
      some { emptyIndexer with apiKey := some "k" } ∧
    getField { emptyIndexer with apiKey := some "k" } "delay" = .absent :=
  ⟨by decide,
   indexer_write_frame [⟨"apiKey", .strV "k"⟩, ⟨"delay", .absent⟩] "delay" (by decide)
     { emptyIndexer with apiKey := some "k" } (by decide)⟩

/-- C8: deterministic partition-ordered output — `readIndexerFields` is the
one-pass emission over the declared names in the fixed partition order
(booleans, integers, floats, strings, integer lists, each partition in its
declared order), its output names follow that order, and equal records yield
identical output lists. -/
theorem indexer_read_partition_order (T : Indexer) :
    readIndexerFields T = allIndexerFieldNames.filterMap (emitField T) ∧
    ((readIndexerFields T).map FieldEntry.name).Sublist allIndexerFieldNames ∧
    ∀ T2 : Indexer, T = T2 → readIndexerFields T = readIndexerFields T2 := by
  refine ⟨readIndexerFields_eq T, ?_, fun T2 h => by rw [h]⟩
  rw [readIndexerFields_eq]
  exact emit_names_sublist T allIndexerFieldNames

/-- Witness for C8 on a concrete record. -/
theorem indexer_read_partition_order_witness :
    readIndexerFields { emptyIndexer with delay := some 2, categories := some [1] } =
      readIndexerFields { emptyIndexer with delay := some 2, categories := some [1] } :=
  (indexer_read_partition_order _).2.2 _ rfl

/-! ### Provider configuration (`provider.go`, `SonarrProvider.Configure`) -/

/-- Tri-state value of a framework string attribute (`types.String`):
unknown, null, or a known string. -/
inductive TFString where
  | unknown : TFString
  | null : TFString
  | value (s : String) : TFString
deriving DecidableEq, Repr

/-- The provider data model `Sonarr` (provider.go): the `api_key` and `url`
configuration attributes. -/
structure Sonarr where
  apiKey : TFString
  url : TFString
deriving DecidableEq, Repr

/-- Outcome of `Configure`: a warning diagnostic and no client, an error
diagnostic and no client, or the API client stored in
`ResourceData`/`DataSourceData`, built from the resolved url and key. -/
inductive ConfigureOutcome where
  | warning (msg : String) : ConfigureOutcome
  | error (msg : String) : ConfigureOutcome
  | client (url apiKey : String) : ConfigureOutcome
deriving DecidableEq, Repr

/-- `SonarrProvider.Configure` (provider.go lines 57–129) after the config
has been decoded into `data`, with `os.Getenv` modelled by `env` (returning
`""` for an unset variable): an unknown url or api_key adds a warning and
returns; a null one is resolved from `SONARR_URL`/`SONARR_API_KEY`; an empty
resolved value adds an error and returns; otherwise the client is built. -/
def configure (data : Sonarr) (env : String → String) : ConfigureOutcome :=
  if data.url = .unknown then .warning "Cannot use unknown value as url"
  else
    let url := match data.url with
      | .null => env "SONARR_URL"
      | .value s => s
      | .unknown => ""
    if url = "" then .error "URL cannot be an empty string"
    else if data.apiKey = .unknown then .warning "Cannot use unknown value as api_key"
    else
      let key := match data.apiKey with
        | .null => env "SONARR_API_KEY"
        | .value s => s
        | .unknown => ""
      if key = "" then .error "API key cannot be an empty string"
      else .client url key

/-- The resolved value of a nullable attribute: the environment variable's
value when null, the configured string otherwise. -/
def resolveString (v : TFString) (envVal : String) : String :=
  match v with
  | .null => envVal
  | .value s => s
  | .unknown => ""

example :
    configure ⟨.null, .value "http://s"⟩ (fun v => if v = "SONARR_API_KEY" then "k" else "") =
      .client "http://s" "k" := by decide

example : configure ⟨.value "k", .null⟩ (fun _ => "") = .error "URL cannot be an empty string" := by
  decide

/-- C9: provider configuration resolution — a null url (api_key) resolves
from the SONARR_URL (SONARR_API_KEY) environment variable; an unknown
attribute adds only a warning and stops before building a client; an empty
resolved value adds an error and stops; the API client is built exactly when
both url and api_key resolve to non-empty strings, from those resolved
values. -/
theorem configure_resolution (d : Sonarr) (env : String → String) :
    (d.url = .null → ∀ u k, configure d env = .client u k → u = env "SONARR_URL") ∧
    (d.apiKey = .null → ∀ u k, configure d env = .client u k → k = env "SONARR_API_KEY") ∧
    (d.url = .unknown → configure d env = .warning "Cannot use unknown value as url") ∧
    (d.url ≠ .unknown → resolveString d.url (env "SONARR_URL") = "" →
      configure d env = .error "URL cannot be an empty string") ∧
    (d.url ≠ .unknown → resolveString d.url (env "SONARR_URL") ≠ "" → d.apiKey = .unknown →
      configure d env = .warning "Cannot use unknown value as api_key") ∧
    (d.url ≠ .unknown → d.apiKey ≠ .unknown →
      resolveString d.url (env "SONARR_URL") ≠ "" →
      resolveString d.apiKey (env "SONARR_API_KEY") = "" →
      configure d env = .error "API key cannot be an empty string") ∧
    (∀ u k, configure d env = .client u k ↔
      d.url ≠ .unknown ∧ d.apiKey ≠ .unknown ∧
      u = resolveString d.url (env "SONARR_URL") ∧
      k = resolveString d.apiKey (env "SONARR_API_KEY") ∧ u ≠ "" ∧ k ≠ "") := by
  rcases d with ⟨dk, du⟩
  cases du <;> cases dk <;>
    simp only [configure, resolveString] <;>
    split_ifs <;>
    refine ⟨?_, ?_, ?_, ?_, ?_, ?_, ?_⟩ <;>
    simp_all <;>
    (intro u k
     constructor
     · rintro ⟨rfl, rfl⟩
       simp_all
     · rintro ⟨rfl, rfl, h1, h2⟩
       simp_all)

/-- Witness for C9: a null api_key resolved from the environment and a
configured url build the client. -/
theorem configure_resolution_witness :
    configure ⟨TFString.null, TFString.value "http://sonarr"⟩ (fun _ => "key123") =
      .client "http://sonarr" "key123" :=
  ((configure_resolution ⟨TFString.null, TFString.value "http://sonarr"⟩
      (fun _ => "key123")).2.2.2.2.2.2 "http://sonarr" "key123").mpr
    ⟨by decide, by decide, by decide, by decide, by decide, by decide⟩

/-! ### Language profile (`language_profile_resource.go`) -/

/-- The fixed language table of `getLanguageID`
(language_profile_resource.go lines 233–350), as `(ID, Name)` pairs in
source order. -/
def languagesTable : List (Int × String) :=
  [(0, "Unknown"), (1, "English"), (2, "French"), (3, "Spanish"), (4, "German"),
   (5, "Italian"), (6, "Danish"), (7, "Dutch"), (8, "Japanese"), (9, "Icelandic"),
   (10, "Chinese"), (11, "Russian"), (12, "Polish"), (13, "Vietnamese"),
   (14, "Swedish"), (15, "Norwegian"), (16, "Finnish"), (17, "Turkish"),
   (18, "Portuguese"), (19, "Flemish"), (20, "Greek"), (21, "Korean"),
   (22, "Hungarian"), (23, "Hebrew"), (24, "Lithuanian"), (25, "Czech"),
   (26, "Arabic"), (27, "Hindi"), (28, "Bulgarian")]

/-- The find loop of `getLanguageID`: the first entry with a matching name
yields its ID, and the fall-through returns 0. -/
def lookupLanguageID : List (Int × String) → String → Int
  | [], _ => 0
  | l :: rest, language => if l.2 = language then l.1 else lookupLanguageID rest language

/-- `getLanguageID` (language_profile_resource.go lines 232–357). -/
def getLanguageID (language : String) : Int :=
  lookupLanguageID languagesTable language

/-- One element of the `Languages` slice built by `readLanguageProfile`:
the `Allowed` flag plus the `starr.Value` name/ID pair. -/
structure ProfileLanguage where
  allowed : Bool
  name : String
  id : Int
deriving DecidableEq, Repr

/-- The `Languages` slice built by `readLanguageProfile`
(language_profile_resource.go lines 208–217) from the profile's language
names: every element is marked `Allowed: true` and carries the looked-up
ID. -/
def readLanguageProfileLanguages (languages : List String) : List ProfileLanguage :=
  languages.map (fun l => ⟨true, l, getLanguageID l⟩)

/-- The `Cutoff` value built by `readLanguageProfile` (lines 222–225). -/
def readLanguageProfileCutoff (cutoffLanguage : String) : String × Int :=
  (cutoffLanguage, getLanguageID cutoffLanguage)

lemma lookupLanguageID_not_mem (t : List (Int × String)) (s : String)
    (h : s ∉ t.map Prod.snd) : lookupLanguageID t s = 0 := by
  induction t with
  | nil => rfl
  | cons l rest ih =>
    simp only [List.map_cons, List.mem_cons, not_or] at h
    unfold lookupLanguageID
    rw [if_neg (fun hEq => h.1 hEq.symm)]
    exact ih h.2

/-- C10: language-name lookup is total with a silent default — each of the
29 table names maps to its own numeric ID (1 for English, 28 for Bulgarian),
every other string, including the empty string and case variants such as
"english", maps to 0 (Unknown's ID), and `readLanguageProfile` builds every
language and the cutoff as allowed with the looked-up ID, with no error
path. -/
theorem getLanguageID_total_default :
    (∀ p ∈ languagesTable, getLanguageID p.2 = p.1) ∧
    languagesTable.length = 29 ∧
    getLanguageID "English" = 1 ∧
    getLanguageID "Bulgarian" = 28 ∧
    getLanguageID "Unknown" = 0 ∧
    (∀ s, s ∉ languagesTable.map Prod.snd → getLanguageID s = 0) ∧
    getLanguageID "" = 0 ∧
    getLanguageID "english" = 0 ∧
    (∀ ls, ∀ l ∈ readLanguageProfileLanguages ls,
      l.allowed = true ∧ l.id = getLanguageID l.name) ∧
    ∀ c, readLanguageProfileCutoff c = (c, getLanguageID c) := by
  refine ⟨by decide, by decide, by decide, by decide, by decide, ?_, by decide, by decide,
    ?_, fun c => rfl⟩
  · exact fun s hs => lookupLanguageID_not_mem languagesTable s hs
  · intro ls l hl
    obtain ⟨x, hx, rfl⟩ := List.mem_map.mp hl
    exact ⟨rfl, rfl⟩

/-- Witness for C10: an unrecognized name maps to 0 and a built language is
allowed with its looked-up ID. -/
theorem getLanguageID_total_default_witness :
    getLanguageID "Klingon" = 0 ∧
    ((⟨true, "French", 2⟩ : ProfileLanguage).allowed = true ∧
     (⟨true, "French", 2⟩ : ProfileLanguage).id = getLanguageID "French") :=
  ⟨getLanguageID_total_default.2.2.2.2.2.1 "Klingon" (by decide),
   getLanguageID_total_default.2.2.2.2.2.2.2.2.1 ["French"] ⟨true, "French", 2⟩ (by decide)⟩

end SonarrProvider
